import Mathlib

/-!
Verification of the audio-degradation pipeline (degrader web app).

The JavaScript sources are shallowly embedded: sample values are modeled as
exact rationals (ℚ), transcendental primitives (`Math.tanh`, `Math.sin`,
`Math.pow(2, ·)`, `Math.PI`) are abstracted into a `MathOps` parameter, and
`Math.random()` is modeled as an explicit stream `ℕ → ℚ` indexed by a counter
threaded through the computation in source order.  Sequential `DataView`
writes at consecutive offsets into a fresh `ArrayBuffer` are modeled as list
concatenation.
-/

/-- `Math.round`: round half toward positive infinity. -/
def jsRound (q : ℚ) : ℤ := ⌊q + 1/2⌋

/-- `ToIntegerOrInfinity` as used by `DataView.setInt16`: truncation toward zero. -/
def jsTrunc (q : ℚ) : ℤ := if 0 ≤ q then ⌊q⌋ else -⌊-q⌋

/-- `Math.max(-1, Math.min(1, sample))`, the final hard clamp of the engine. -/
def clamp (q : ℚ) : ℚ := max (-1) (min 1 q)

lemma clamp_bounds (q : ℚ) : -1 ≤ clamp q ∧ clamp q ≤ 1 := by
  constructor
  · exact le_max_left _ _
  · exact max_le (by norm_num) (min_le_left _ _)

namespace AudioCompressor

/-- The fixed 8-entry level table of `AudioCompressor.create3BitAudio` (app.js). -/
def levels : List ℚ := [-1, -714/1000, -428/1000, -142/1000, 142/1000, 428/1000, 714/1000, 1]

/-- `Math.round(((sample + 1) / 2) * 7)` from `create3BitAudio`. -/
def levelIndex (sample : ℚ) : ℤ := jsRound (((sample + 1) / 2) * 7)

/-- `Math.max(0, Math.min(7, levelIndex))` from `create3BitAudio`. -/
def clampedIndex (sample : ℚ) : ℕ := (max 0 (min 7 (levelIndex sample))).toNat

/-- The per-sample mapping `targetData[i] = levels[clampedIndex]` of `create3BitAudio`. -/
def quantizeSample (sample : ℚ) : ℚ := levels.getD (clampedIndex sample) 0

lemma clampedIndex_le (x : ℚ) : clampedIndex x ≤ 7 := by
  unfold clampedIndex
  omega

lemma getD_levels_facts (i : ℕ) (h : i ≤ 7) :
    levels.getD i 0 ∈ levels ∧ -1 ≤ levels.getD i 0 ∧ levels.getD i 0 ≤ 1 := by
  interval_cases i <;> norm_num [levels]

lemma quantize_fixed_point (i : ℕ) (h : i ≤ 7) :
    quantizeSample (levels.getD i 0) = levels.getD i 0 := by
  interval_cases i <;>
    (norm_num [quantizeSample, clampedIndex, levelIndex, jsRound, levels]; try simp)

/-- Spec-side level-value formula from §4.2.3, for comparison with the
implementation's table: `level = -1 + 2*index/(levels-1)` with `levels = 8`. -/
def specLevelValue (i : ℕ) : ℚ := -1 + 2 * (i : ℚ) / 7

/-- Claim C10: the computed level index is clamped into `[0, 7]` before the
level table is accessed, so the access is in bounds and every output sample of
`create3BitAudio`'s per-sample map is a member of the fixed eight-element level
set (hence within `[-1, 1]`), for arbitrary input sample values. -/
theorem quantize_index_in_bounds (x : ℚ) :
    clampedIndex x < levels.length ∧ quantizeSample x ∈ levels ∧
    -1 ≤ quantizeSample x ∧ quantizeSample x ≤ 1 := by
  have h := clampedIndex_le x
  have hf := getD_levels_facts (clampedIndex x) h
  refine ⟨?_, hf.1, hf.2.1, hf.2.2⟩
  simp only [levels, List.length]
  omega

/-- Claim C4: the level quantizer of `create3BitAudio` is idempotent — applying
the per-sample quantization twice yields the same value as applying it once;
every value in the output level set is a fixed point of the quantizer. -/
theorem quantize_idempotent (x : ℚ) :
    quantizeSample (quantizeSample x) = quantizeSample x := by
  have h := clampedIndex_le x
  have e : quantizeSample x = levels.getD (clampedIndex x) 0 := rfl
  rw [e]
  exact quantize_fixed_point _ h

/-- Claim C3, counterexample: the code's level table is not the spec formula
`-1 + 2*index/7`.  At input `-3/4` the computed index is `1` and the code
produces `-0.714`, while the claimed formula gives `-5/7 ≠ -0.714`. -/
theorem quantize_level_formula_counterexample :
    clampedIndex (-3/4) = 1 ∧ quantizeSample (-3/4) = -714/1000 ∧
    specLevelValue 1 = -5/7 ∧ ((-714/1000 : ℚ) ≠ -5/7) := by
  refine ⟨?_, ?_, by norm_num [specLevelValue], by norm_num⟩
  · norm_num [clampedIndex, levelIndex, jsRound]
  · norm_num [quantizeSample, clampedIndex, levelIndex, jsRound, levels]

/-- Claim C3, amended: the index computation is exactly the claimed formula
`round((x+1)/2 * 7)` clamped to `[0,7]`, but the produced level comes from the
fixed table `[-1, -0.714, -0.428, -0.142, 0.142, 0.428, 0.714, 1]`, which only
approximates `-1 + 2*index/7` (within `3/3500`); a sample exactly `1.0` does
map to the top level, exactly `1.0`. -/
theorem quantize_level_mapping_amended :
    (∀ x : ℚ, quantizeSample x = levels.getD ((max 0 (min 7 (jsRound ((x + 1) / 2 * 7)))).toNat) 0) ∧
    (∀ i : Fin 8, |levels.getD (i : ℕ) 0 - specLevelValue (i : ℕ)| ≤ 3/3500) ∧
    quantizeSample 1 = 1 := by
  refine ⟨fun x => rfl, ?_, ?_⟩
  · intro i
    fin_cases i <;> norm_num [levels, specLevelValue, abs_le]
  · norm_num [quantizeSample, clampedIndex, levelIndex, jsRound, levels]
    simp

end AudioCompressor

/-- A decoded multi-channel sample buffer (`AudioBuffer`): channel data is a
function from channel index and frame index to the sample value. -/
structure AudioBuffer where
  numberOfChannels : ℕ
  length : ℕ
  sampleRate : ℕ
  data : ℕ → ℕ → ℚ

/-- The UI settings object `{ type, intensity, noise, crackle }` (app.js). -/
structure Settings where
  type : String
  intensity : ℚ
  noise : Bool
  crackle : Bool

/-- Abstracted transcendental primitives: `Math.tanh`, `Math.sin`,
`Math.pow(2, ·)` and the constant `Math.PI`. -/
structure MathOps where
  tanh : ℚ → ℚ
  sin : ℚ → ℚ
  pow2 : ℚ → ℚ
  pi : ℚ

namespace DistortionEngine

/-- `DistortionEngine.applyMainDistortion` (app.js lines 74-106).  `rnd` is the
`Math.random()` stream and `k` the number of random draws made so far; the
result pairs the output sample with the updated draw count. -/
def applyMainDistortion (ops : MathOps) (rnd : ℕ → ℚ) (k : ℕ) (sample : ℚ)
    (s : Settings) : ℚ × ℕ :=
  let intensity := s.intensity * (1/2)
  if s.type = "digital" then
    (ops.tanh (sample * intensity), k)
  else if s.type = "analog" then
    (ops.sin (sample * intensity * ops.pi * (1/2)), k)
  else if s.type = "crushed" then
    let bits := max 1 (16 - intensity)
    let lvls := ops.pow2 bits
    ((jsRound (sample * lvls) : ℚ) / lvls, k)
  else if s.type = "radio" then
    (ops.sin (sample * intensity * 2) * (7/10), k)
  else if s.type = "glitch" then
    if rnd k < (1/100) * intensity then ((rnd (k+1) - 1/2) * 2, k+2)
    else (sample, k+1)
  else
    (sample, k)

/-- The per-sample body of the inner loop of `processAudioBuffer` (app.js
lines 50-65): main distortion, optional additive noise, optional crackle
replacement, then the final clamp; random draws are threaded in source order. -/
def processSample (ops : MathOps) (rnd : ℕ → ℚ) (k : ℕ) (sample : ℚ)
    (s : Settings) : ℚ × ℕ :=
  let m := applyMainDistortion ops rnd k sample s
  let n := if s.noise then (m.1 + (rnd m.2 - 1/2) * (1/10) * s.intensity, m.2 + 1) else m
  let c := if s.crackle then
      (if rnd n.2 < (1/1000) * s.intensity then ((rnd (n.2+1) - 1/2) * 2, n.2 + 2)
       else (n.1, n.2 + 1))
    else n
  (clamp c.1, c.2)

/-- The engine's mutable output state: the output channel data written so far
(initially the all-zero buffer `createBuffer` provides) and the number of
random draws made. -/
abbrev OutState := (ℕ → ℕ → ℚ) × ℕ

/-- `outputData[i] = v` on channel `c`. -/
def writeSample (out : ℕ → ℕ → ℚ) (c i : ℕ) (v : ℚ) : ℕ → ℕ → ℚ :=
  fun c' i' => if c' = c ∧ i' = i then v else out c' i'

/-- One iteration of the inner `for i` loop of `processAudioBuffer`. -/
def processIndex (ops : MathOps) (rnd : ℕ → ℚ) (s : Settings) (inp : ℕ → ℕ → ℚ)
    (c : ℕ) (st : OutState) (i : ℕ) : OutState :=
  let r := processSample ops rnd st.2 (inp c i) s
  (writeSample st.1 c i r.1, r.2)

/-- The `for i = start; i < end` loop over one channel's slice of a batch. -/
def processChannel (ops : MathOps) (rnd : ℕ → ℚ) (s : Settings) (inp : ℕ → ℕ → ℚ)
    (start stop : ℕ) (st : OutState) (c : ℕ) : OutState :=
  (List.range' start (stop - start)).foldl (processIndex ops rnd s inp c) st

/-- One batch (`step`) of `processAudioBuffer`: `start = step * stepSize`,
`end = min(start + stepSize, buffer.length)`, channels processed in order. -/
def processStep (ops : MathOps) (rnd : ℕ → ℚ) (s : Settings) (buf : AudioBuffer)
    (st : OutState) (step : ℕ) : OutState :=
  let stepSize := buf.length / 100
  let start := step * stepSize
  let stop := min (start + stepSize) buf.length
  (List.range buf.numberOfChannels).foldl (processChannel ops rnd s buf.data start stop) st

/-- `DistortionEngine.processAudioBuffer` (app.js lines 32-72): 100 batches of
`floor(length/100)` frames each, a progress value `20 + (step/100)*80` emitted
after each batch.  Returns the processed buffer and the emitted progress
values. -/
def processAudioBuffer (ops : MathOps) (rnd : ℕ → ℚ) (buf : AudioBuffer)
    (s : Settings) : AudioBuffer × List ℚ :=
  let st := (List.range 100).foldl
    (fun (acc : OutState × List ℚ) step =>
      (processStep ops rnd s buf acc.1 step, acc.2 ++ [20 + ((step : ℚ)/100) * 80]))
    (((fun _ _ => 0), 0), [])
  ({ numberOfChannels := buf.numberOfChannels, length := buf.length,
     sampleRate := buf.sampleRate, data := st.1.1 }, st.2)

lemma foldl_state_inv {σ α : Type} (P : σ → Prop) (g : σ → α → σ)
    (hg : ∀ t a, P t → P (g t a)) :
    ∀ (l : List α) (s : σ), P s → P (l.foldl g s) := by
  intro l
  induction l with
  | nil => intro s hs; exact hs
  | cons a l ih => intro s hs; exact ih _ (hg _ _ hs)

lemma processSample_fst_bounds (ops : MathOps) (rnd : ℕ → ℚ) (k : ℕ) (x : ℚ)
    (s : Settings) :
    -1 ≤ (processSample ops rnd k x s).1 ∧ (processSample ops rnd k x s).1 ≤ 1 := by
  unfold processSample
  exact clamp_bounds _

/-- Invariant: every sample written so far lies in `[-1, 1]` — initially true
because `createBuffer` zero-fills the output. -/
def BoundedOut (out : ℕ → ℕ → ℚ) : Prop := ∀ c i, -1 ≤ out c i ∧ out c i ≤ 1

lemma processIndex_inv (ops : MathOps) (rnd : ℕ → ℚ) (s : Settings)
    (inp : ℕ → ℕ → ℚ) (c : ℕ) (st : OutState) (i : ℕ) (h : BoundedOut st.1) :
    BoundedOut (processIndex ops rnd s inp c st i).1 := by
  intro c' i'
  unfold processIndex writeSample
  dsimp only
  split
  · exact processSample_fst_bounds ops rnd st.2 (inp c i) s
  · exact h c' i'

lemma processChannel_inv (ops : MathOps) (rnd : ℕ → ℚ) (s : Settings)
    (inp : ℕ → ℕ → ℚ) (start stop : ℕ) (st : OutState) (c : ℕ)
    (h : BoundedOut st.1) : BoundedOut (processChannel ops rnd s inp start stop st c).1 := by
  unfold processChannel
  exact foldl_state_inv (fun t => BoundedOut t.1) _
    (fun t a ht => processIndex_inv ops rnd s inp c t a ht) _ st h

lemma processStep_inv (ops : MathOps) (rnd : ℕ → ℚ) (s : Settings)
    (buf : AudioBuffer) (st : OutState) (step : ℕ) (h : BoundedOut st.1) :
    BoundedOut (processStep ops rnd s buf st step).1 := by
  unfold processStep
  exact foldl_state_inv (fun t => BoundedOut t.1) _
    (fun t a ht => processChannel_inv ops rnd s buf.data _ _ t a ht) _ st h

/-- Claim C1: every sample of the buffer produced by `processAudioBuffer` lies
in `[-1.0, 1.0]` inclusive, for every input buffer, every settings object
(any distortion type, noise or crackle on or off), every realization of the
random stream and any values of the transcendental primitives. -/
theorem processAudioBuffer_range_invariant (ops : MathOps) (rnd : ℕ → ℚ)
    (buf : AudioBuffer) (s : Settings) (c i : ℕ)
    (hc : c < (processAudioBuffer ops rnd buf s).1.numberOfChannels)
    (hi : i < (processAudioBuffer ops rnd buf s).1.length) :
    -1 ≤ (processAudioBuffer ops rnd buf s).1.data c i ∧
    (processAudioBuffer ops rnd buf s).1.data c i ≤ 1 := by
  have h : BoundedOut ((List.range 100).foldl
      (fun (acc : OutState × List ℚ) step =>
        (processStep ops rnd s buf acc.1 step, acc.2 ++ [20 + ((step : ℚ)/100) * 80]))
      (((fun _ _ => 0), 0), [])).1.1 := by
    refine foldl_state_inv (fun t : OutState × List ℚ => BoundedOut t.1.1) _ ?_ _ _ ?_
    · intro t a ht
      exact processStep_inv ops rnd s buf t.1 a ht
    · intro c' i'
      norm_num
  exact h c i

/-- A concrete input for closed-form evaluations: mono, one frame, constant
sample `1/2`. -/
def buf1 : AudioBuffer := ⟨1, 1, 8000, fun _ _ => 1/2⟩

/-- Trivial instantiations of the abstracted primitives. -/
def opsId : MathOps := ⟨id, id, id, 3⟩

/-- A constant realization of the random stream. -/
def rnd0 : ℕ → ℚ := fun _ => 0

/-- Another realization of the random stream, distinct from `rnd0`. -/
def rnd1 : ℕ → ℚ := fun _ => 1/2

/-- Settings: digital distortion at intensity 5, no noise, no crackle. -/
def s0 : Settings := ⟨"digital", 5, false, false⟩

/-- Claim C1 witness. -/
theorem processAudioBuffer_range_invariant_witness :
    -1 ≤ (processAudioBuffer opsId rnd0 buf1 s0).1.data 0 0 ∧
    (processAudioBuffer opsId rnd0 buf1 s0).1.data 0 0 ≤ 1 :=
  processAudioBuffer_range_invariant opsId rnd0 buf1 s0 0 0
    (by decide) (by decide)

/-- `DataView.setUint16(_, v, true)`: two bytes, little-endian, value mod 2^16. -/
def u16LE (v : ℕ) : List ℕ := [v % 256, v / 256 % 256]

/-- `DataView.setUint32(_, v, true)`: four bytes, little-endian, value mod 2^32. -/
def u32LE (v : ℕ) : List ℕ := [v % 256, v / 256 % 256, v / 65536 % 256, v / 16777216 % 256]

/-- `setInt16(offset, sample * 0x7FFF, true)`: `ToInt16` truncates the float
toward zero and keeps its two's-complement low 16 bits. -/
def sampleWord (x : ℚ) : ℕ := (jsTrunc (clamp x * 32767) % 65536).toNat

/-- The two data bytes one sample contributes. -/
def int16LE (x : ℚ) : List ℕ := u16LE (sampleWord x)

/-- The 44-byte RIFF/WAVE header written by `bufferToWav` (app.js lines
132-144): `"RIFF"`, chunk size, `"WAVE"`, `"fmt "`, subchunk size 16, PCM,
channel count, sample rate, byte rate, block align, 16 bits per sample,
`"data"`, data length. -/
def wavHeader (buf : AudioBuffer) : List ℕ :=
  let len := buf.length * buf.numberOfChannels * 2
  [82, 73, 70, 70] ++ u32LE (36 + len) ++ [87, 65, 86, 69] ++ [102, 109, 116, 32] ++
    u32LE 16 ++ u16LE 1 ++ u16LE buf.numberOfChannels ++ u32LE buf.sampleRate ++
    u32LE (buf.sampleRate * buf.numberOfChannels * 2) ++ u16LE (buf.numberOfChannels * 2) ++
    u16LE 16 ++ [100, 97, 116, 97] ++ u32LE len

/-- The bytes of one frame: channels in order (channel-minor). -/
def frameBytes (buf : AudioBuffer) (i : ℕ) : List ℕ :=
  (List.range buf.numberOfChannels).flatMap (fun c => int16LE (buf.data c i))

/-- The data section: frames in order (frame-major). -/
def wavData (buf : AudioBuffer) : List ℕ :=
  (List.range buf.length).flatMap (frameBytes buf)

/-- `DistortionEngine.bufferToWav` (app.js lines 121-156): the sequential
`DataView` writes at offsets 0..43 then 44 upward are modeled as the
concatenation of the header bytes and the data bytes. -/
def bufferToWav (buf : AudioBuffer) : List ℕ := wavHeader buf ++ wavData buf

/-- `DistortionEngine.addDistortion` (app.js lines 9-30) with the external
decode step abstracted away (its input is the already-decoded buffer):
reports 0, then 20 after decode, then the engine's batch progress, then 100,
and returns the WAV bytes of the processed buffer. -/
def addDistortion (ops : MathOps) (rnd : ℕ → ℚ) (buf : AudioBuffer)
    (s : Settings) : List ℕ × List ℚ :=
  let r := processAudioBuffer ops rnd buf s
  (bufferToWav r.1, [0, 20] ++ r.2 ++ [100])

lemma foldl_trace_snd {σ : Type} (g : σ × List ℚ → ℕ → σ) (f : ℕ → ℚ) :
    ∀ (l : List ℕ) (s : σ) (t : List ℚ),
      (l.foldl (fun acc step => (g acc step, acc.2 ++ [f step])) (s, t)).2 = t ++ l.map f := by
  intro l
  induction l with
  | nil => intro s t; simp
  | cons a l ih => intro s t; simp [ih (g (s, t) a) (t ++ [f a])]

lemma foldl_trace_fst_id {σ : Type} (g : σ × List ℚ → ℕ → σ) (f : ℕ → ℚ)
    (hg : ∀ acc step, g acc step = acc.1) :
    ∀ (l : List ℕ) (s : σ) (t : List ℚ),
      (l.foldl (fun acc step => (g acc step, acc.2 ++ [f step])) (s, t)).1 = s := by
  intro l
  induction l with
  | nil => intro s t; rfl
  | cons a l ih =>
    intro s t
    rw [List.foldl_cons]
    have h := hg (s, t) a
    rw [h]
    exact ih s (t ++ [f a])

lemma processAudioBuffer_trace (ops : MathOps) (rnd : ℕ → ℚ) (buf : AudioBuffer)
    (s : Settings) :
    (processAudioBuffer ops rnd buf s).2 =
      (List.range 100).map (fun (step : ℕ) => 20 + ((step : ℚ)/100) * 80) := by
  unfold processAudioBuffer
  exact foldl_trace_snd (fun acc step => processStep ops rnd s buf acc.1 step)
    (fun (step : ℕ) => 20 + ((step : ℚ)/100) * 80) (List.range 100) _ []

lemma batch_progress_mem {x : ℚ}
    (hx : x ∈ (List.range 100).map (fun (step : ℕ) => 20 + ((step : ℚ)/100) * 80)) :
    20 ≤ x ∧ x ≤ 100 := by
  rcases List.mem_map.mp hx with ⟨k, hk, rfl⟩
  have hk99 : k ≤ 99 := by have := List.mem_range.mp hk; omega
  have hkq : (k : ℚ) ≤ 99 := by exact_mod_cast hk99
  have hk0 : (0 : ℚ) ≤ (k : ℚ) := Nat.cast_nonneg k
  constructor <;> nlinarith

/-- Claim C7: within one run of `addDistortion`, the sequence of values passed
to the progress callback is monotonically non-decreasing, every value lies in
`[0, 100]`, the first reported value is 0 and the last is 100. -/
theorem addDistortion_progress_contract (ops : MathOps) (rnd : ℕ → ℚ)
    (buf : AudioBuffer) (s : Settings) :
    (addDistortion ops rnd buf s).2.Chain' (· ≤ ·) ∧
    (∀ x ∈ (addDistortion ops rnd buf s).2, 0 ≤ x ∧ x ≤ 100) ∧
    (addDistortion ops rnd buf s).2.head? = some 0 ∧
    (addDistortion ops rnd buf s).2.getLast? = some 100 := by
  have ht : (addDistortion ops rnd buf s).2 =
      ([0, 20] ++ (List.range 100).map (fun (step : ℕ) => 20 + ((step : ℚ)/100) * 80)) ++ [100] := by
    show ([0, 20] ++ (processAudioBuffer ops rnd buf s).2 ++ [100] : List ℚ) = _
    rw [processAudioBuffer_trace]
  rw [ht]
  have hmemM : ∀ x ∈ (List.range 100).map (fun (step : ℕ) => 20 + ((step : ℚ)/100) * 80),
      20 ≤ x ∧ x ≤ 100 := fun x hx => batch_progress_mem hx
  have hmid : ((List.range 100).map
      (fun (step : ℕ) => 20 + ((step : ℚ)/100) * 80)).Pairwise (· ≤ ·) := by
    refine List.pairwise_map.mpr ?_
    refine List.Pairwise.imp ?_ (List.pairwise_lt_range 100)
    intro a b hab
    have h1 : (a : ℚ) ≤ (b : ℚ) := by exact_mod_cast le_of_lt hab
    nlinarith
  have hpair : (([0, 20] ++ (List.range 100).map
      (fun (step : ℕ) => 20 + ((step : ℚ)/100) * 80)) ++ [100]).Pairwise (· ≤ ·) := by
    rw [List.pairwise_append]
    refine ⟨?_, List.pairwise_singleton _ _, ?_⟩
    · rw [List.pairwise_append]
      refine ⟨by norm_num [List.pairwise_cons], hmid, ?_⟩
      intro a ha b hb
      have hb' := (hmemM b hb).1
      have ha' : a = 0 ∨ a = 20 := by simpa using ha
      rcases ha' with rfl | rfl <;> linarith
    · intro a ha b hb
      have hb' : b = 100 := by simpa using hb
      subst hb'
      rcases List.mem_append.mp ha with ha | ha
      · have ha' : a = 0 ∨ a = 20 := by simpa using ha
        rcases ha' with rfl | rfl <;> norm_num
      · exact (hmemM a ha).2
  refine ⟨hpair.chain', ?_, rfl, List.getLast?_concat _⟩
  intro x hx
  rcases List.mem_append.mp hx with hx | hx
  · rcases List.mem_append.mp hx with hx | hx
    · have hx' : x = 0 ∨ x = 20 := by simpa using hx
      rcases hx' with rfl | rfl <;> norm_num
    · have hm := hmemM x hx
      constructor <;> linarith [hm.1, hm.2]
  · have hx' : x = 100 := by simpa using hx
    subst hx'
    norm_num

lemma applyMainDistortion_no_rand (ops : MathOps) (r1 r2 : ℕ → ℚ) (k : ℕ)
    (x : ℚ) (s : Settings) (h : s.type ≠ "glitch") :
    applyMainDistortion ops r1 k x s = applyMainDistortion ops r2 k x s := by
  unfold applyMainDistortion
  split_ifs <;> first | rfl | exact absurd (by assumption) h

lemma processSample_no_rand (ops : MathOps) (r1 r2 : ℕ → ℚ) (k : ℕ) (x : ℚ)
    (s : Settings) (h1 : s.noise = false) (h2 : s.crackle = false)
    (h3 : s.type ≠ "glitch") :
    processSample ops r1 k x s = processSample ops r2 k x s := by
  unfold processSample
  rw [applyMainDistortion_no_rand ops r1 r2 k x s h3]
  simp [h1, h2]

lemma processStep_no_rand (ops : MathOps) (r1 r2 : ℕ → ℚ) (s : Settings)
    (buf : AudioBuffer) (h1 : s.noise = false) (h2 : s.crackle = false)
    (h3 : s.type ≠ "glitch") :
    processStep ops r1 s buf = processStep ops r2 s buf := by
  have hidx : processIndex ops r1 s buf.data = processIndex ops r2 s buf.data := by
    funext c st i
    unfold processIndex
    rw [processSample_no_rand ops r1 r2 st.2 (buf.data c i) s h1 h2 h3]
  have hch : processChannel ops r1 s buf.data = processChannel ops r2 s buf.data := by
    funext start stop st c
    unfold processChannel
    rw [hidx]
  funext st step
  unfold processStep
  rw [hch]

/-- Claim C9: with noise disabled, crackle disabled and any distortion type
other than `"glitch"`, the engine consults no random source: its result is the
same for every realization of the random stream, so two runs on the same input
with the same settings are bit-identical. -/
theorem processAudioBuffer_deterministic (ops : MathOps) (buf : AudioBuffer)
    (s : Settings) (r1 r2 : ℕ → ℚ) (h1 : s.noise = false)
    (h2 : s.crackle = false) (h3 : s.type ≠ "glitch") :
    processAudioBuffer ops r1 buf s = processAudioBuffer ops r2 buf s := by
  unfold processAudioBuffer
  simp only [processStep_no_rand ops r1 r2 s buf h1 h2 h3]

/-- Claim C9 witness. -/
theorem processAudioBuffer_deterministic_witness :
    processAudioBuffer opsId rnd0 buf1 s0 = processAudioBuffer opsId rnd1 buf1 s0 :=
  processAudioBuffer_deterministic opsId buf1 s0 rnd0 rnd1 rfl rfl (by decide)

lemma processStep_short (ops : MathOps) (rnd : ℕ → ℚ) (s : Settings)
    (buf : AudioBuffer) (h : buf.length < 100) (st : OutState) (step : ℕ) :
    processStep ops rnd s buf st step = st := by
  show (List.range buf.numberOfChannels).foldl
    (processChannel ops rnd s buf.data (step * (buf.length / 100))
      (min (step * (buf.length / 100) + buf.length / 100) buf.length)) st = st
  have hz : min (step * (buf.length / 100) + buf.length / 100) buf.length -
      step * (buf.length / 100) = 0 := by omega
  induction (List.range buf.numberOfChannels) with
  | nil => rfl
  | cons c l ih =>
    rw [List.foldl_cons]
    have hc : processChannel ops rnd s buf.data (step * (buf.length / 100))
        (min (step * (buf.length / 100) + buf.length / 100) buf.length) st c = st := by
      unfold processChannel
      rw [hz]
      rfl
    rw [hc]
    exact ih

/-- Claim C2 is violated by the code: `stepSize = floor(length/100)` means the
100 batches only cover indices `< 100*floor(length/100)`; the remaining
`length mod 100` frames (for `length < 100`, the whole buffer) are never
transformed and stay at the zero fill.  Concretely, for a one-frame mono
buffer with sample `1/2` and digital distortion at intensity 5, the engine
outputs `0` at frame 0, while the per-sample stage chain maps the input
sample to `1`. -/
theorem processAudioBuffer_drops_tail_frames :
    (processAudioBuffer opsId rnd0 buf1 s0).1.data 0 0 = 0 ∧
    (processSample opsId rnd0 0 (buf1.data 0 0) s0).1 = 1 ∧
    ((0 : ℚ) ≠ 1) := by
  refine ⟨?_, ?_, by norm_num⟩
  · unfold processAudioBuffer
    have h := foldl_trace_fst_id
      (fun acc step => processStep opsId rnd0 s0 buf1 acc.1 step)
      (fun step => 20 + ((step : ℚ)/100) * 80)
      (fun acc step => processStep_short opsId rnd0 s0 buf1 (by norm_num [buf1]) acc.1 step)
      (List.range 100) ((fun _ _ => 0), 0) []
    simp only [h]
  · show (processSample opsId rnd0 0 (1/2) s0).1 = 1
    unfold processSample applyMainDistortion
    norm_num [s0, opsId, clamp]

lemma flatMap_length_const {β : Type} (f : ℕ → List β) (L : ℕ)
    (hL : ∀ i, (f i).length = L) : ∀ N, ((List.range N).flatMap f).length = N * L := by
  intro N
  induction N with
  | zero => simp
  | succ N ih =>
    rw [List.range_succ, List.flatMap_append]
    simp [ih, hL N]
    ring

lemma flatMap_range_getElem {β : Type} (f : ℕ → List β) (L : ℕ)
    (hL : ∀ i, (f i).length = L) :
    ∀ (N n k : ℕ), n < N → k < L →
      ((List.range N).flatMap f)[n * L + k]? = (f n)[k]? := by
  intro N
  induction N with
  | zero => intro n k hn _; omega
  | succ N ih =>
    intro n k hn hk
    rw [List.range_succ, List.flatMap_append]
    rcases Nat.lt_or_ge n N with h | h
    · have hlt : n * L + k < ((List.range N).flatMap f).length := by
        rw [flatMap_length_const f L hL N]
        have h1 : n * L + k < (n + 1) * L := by
          have : (n + 1) * L = n * L + L := by ring
          omega
        have h2 : (n + 1) * L ≤ N * L := Nat.mul_le_mul_right L h
        omega
      rw [List.getElem?_append_left hlt]
      exact ih n k h hk
    · have hn' : n = N := by omega
      rw [hn']
      have hlen : ((List.range N).flatMap f).length = N * L := flatMap_length_const f L hL N
      have e1 : ((List.range N).flatMap f).length ≤ N * L + k := by omega
      rw [List.getElem?_append_right e1, hlen]
      have e2 : N * L + k - N * L = k := by omega
      rw [e2]
      simp

lemma int16LE_length (x : ℚ) : (int16LE x).length = 2 := rfl

lemma frameBytes_length (buf : AudioBuffer) (i : ℕ) :
    (frameBytes buf i).length = buf.numberOfChannels * 2 := by
  unfold frameBytes
  exact flatMap_length_const (fun c => int16LE (buf.data c i)) 2
    (fun c => int16LE_length (buf.data c i)) buf.numberOfChannels

lemma wavHeader_length (buf : AudioBuffer) : (wavHeader buf).length = 44 := by
  simp [wavHeader, u16LE, u32LE]

/-- The byte of `bufferToWav` at data offset `44 + 2*(frame*channelCount +
channel) + j` is byte `j` of the 16-bit little-endian word of that sample. -/
lemma wav_byte (buf : AudioBuffer) (i c j : ℕ) (hi : i < buf.length)
    (hc : c < buf.numberOfChannels) (hj : j < 2) :
    (bufferToWav buf)[44 + 2*(i * buf.numberOfChannels + c) + j]? =
      (int16LE (buf.data c i))[j]? := by
  have hdr := wavHeader_length buf
  have h0 : (bufferToWav buf)[44 + 2*(i * buf.numberOfChannels + c) + j]? =
      (wavData buf)[2*(i * buf.numberOfChannels + c) + j]? := by
    unfold bufferToWav
    rw [List.getElem?_append_right (by omega)]
    have e : 44 + 2*(i * buf.numberOfChannels + c) + j - (wavHeader buf).length =
        2*(i * buf.numberOfChannels + c) + j := by omega
    rw [e]
  rw [h0]
  have h1 : (wavData buf)[2*(i * buf.numberOfChannels + c) + j]? =
      (frameBytes buf i)[2*c + j]? := by
    unfold wavData
    have h := flatMap_range_getElem (frameBytes buf) (buf.numberOfChannels * 2)
      (frameBytes_length buf) buf.length i (2*c + j) hi (by omega)
    have e : 2*(i * buf.numberOfChannels + c) + j =
        i * (buf.numberOfChannels * 2) + (2*c + j) := by ring
    rw [e]
    exact h
  rw [h1]
  have h2 := flatMap_range_getElem (fun c' => int16LE (buf.data c' i)) 2
    (fun c' => rfl) buf.numberOfChannels c j hc hj
  have e : 2*c + j = c * 2 + j := by ring
  rw [e]
  exact h2

lemma sampleWord_lt (x : ℚ) : sampleWord x < 65536 := by
  unfold sampleWord
  have h1 : (0:ℤ) ≤ jsTrunc (clamp x * 32767) % 65536 :=
    Int.emod_nonneg _ (by norm_num)
  have h2 : jsTrunc (clamp x * 32767) % 65536 < 65536 :=
    Int.emod_lt_of_pos _ (by norm_num)
  omega

/-- Claim C5, counterexample: the claim's data word uses `round`, but
`setInt16` truncates toward zero.  For a one-frame mono buffer with sample
`1/2`, the written word is `16383` while `round(clamp(1/2)*32767) = 16384`. -/
theorem bufferToWav_round_counterexample :
    (bufferToWav buf1)[44]?.getD 0 + 256 * ((bufferToWav buf1)[45]?.getD 0) = 16383 ∧
    jsRound (clamp (1/2) * 32767) = 16384 ∧ ((16383 : ℕ) ≠ 16384) := by
  have hclamp : clamp (1/2 : ℚ) = 1/2 := by unfold clamp; norm_num
  have hfloor : (⌊(1:ℚ)/2 * 32767⌋ : ℤ) = 16383 := by norm_num
  have hw : sampleWord (1/2 : ℚ) = 16383 := by
    unfold sampleWord jsTrunc
    rw [hclamp, if_pos (by norm_num), hfloor]
    rfl
  have h0 := wav_byte buf1 0 0 0 (by norm_num [buf1]) (by norm_num [buf1]) (by omega)
  have h1 := wav_byte buf1 0 0 1 (by norm_num [buf1]) (by norm_num [buf1]) (by omega)
  have hb1 : buf1.data 0 0 = 1/2 := rfl
  have hn : buf1.numberOfChannels = 1 := rfl
  rw [hn, hb1] at h0 h1
  norm_num at h0 h1
  refine ⟨?_, ?_, by norm_num⟩
  · rw [h0, h1]
    rw [int16LE, u16LE, hw]
    norm_num
  · unfold jsRound
    rw [hclamp]
    rw [show (1:ℚ)/2 * 32767 + 1/2 = 16384 by norm_num]
    norm_num

/-- Claim C5, amended: the data section is interleaved 16-bit little-endian
words in frame-major, channel-minor order at offset
`44 + 2*(frame*channelCount + channel)`, but each word is the two's-complement
encoding of `truncate-toward-zero(clamp(sample,-1,1) * 32767)`, not `round`. -/
theorem bufferToWav_data_layout_amended (buf : AudioBuffer) (i c : ℕ)
    (hi : i < buf.length) (hc : c < buf.numberOfChannels) :
    (bufferToWav buf)[44 + 2*(i * buf.numberOfChannels + c)]? =
      some (sampleWord (buf.data c i) % 256) ∧
    (bufferToWav buf)[44 + 2*(i * buf.numberOfChannels + c) + 1]? =
      some (sampleWord (buf.data c i) / 256 % 256) ∧
    sampleWord (buf.data c i) =
      (jsTrunc (clamp (buf.data c i) * 32767) % 65536).toNat := by
  refine ⟨?_, ?_, rfl⟩
  · have h := wav_byte buf i c 0 hi hc (by omega)
    simpa [int16LE, u16LE] using h
  · have h := wav_byte buf i c 1 hi hc (by omega)
    simpa [int16LE, u16LE] using h

/-- Claim C5 witness. -/
theorem bufferToWav_data_layout_amended_witness :
    (bufferToWav buf1)[44 + 2*(0 * buf1.numberOfChannels + 0)]? =
      some (sampleWord (buf1.data 0 0) % 256) ∧
    (bufferToWav buf1)[44 + 2*(0 * buf1.numberOfChannels + 0) + 1]? =
      some (sampleWord (buf1.data 0 0) / 256 % 256) ∧
    sampleWord (buf1.data 0 0) =
      (jsTrunc (clamp (buf1.data 0 0) * 32767) % 65536).toNat :=
  bufferToWav_data_layout_amended buf1 0 0 (by decide) (by decide)

/-- One byte of the encoded output, 0 when out of range. -/
def readByte (bs : List ℕ) (off : ℕ) : ℕ := bs.getD off 0

/-- A 16-bit little-endian read. -/
def readU16 (bs : List ℕ) (off : ℕ) : ℕ := readByte bs off + 256 * readByte bs (off+1)

/-- A 32-bit little-endian read. -/
def readU32 (bs : List ℕ) (off : ℕ) : ℕ :=
  readByte bs off + 256 * readByte bs (off+1) + 65536 * readByte bs (off+2) +
    16777216 * readByte bs (off+3)

/-- NumChannels field at offset 22. -/
def decodeChannelCount (bs : List ℕ) : ℕ := readU16 bs 22

/-- SampleRate field at offset 24. -/
def decodeSampleRate (bs : List ℕ) : ℕ := readU32 bs 24

/-- Subchunk2Size (data length) field at offset 40. -/
def decodeDataLength (bs : List ℕ) : ℕ := readU32 bs 40

/-- Frame count recovered from the data length: `dataLength / (2*channels)`. -/
def decodeFrameCount (bs : List ℕ) : ℕ :=
  decodeDataLength bs / (2 * decodeChannelCount bs)

/-- Sign-decode a 16-bit word. -/
def decodeSampleInt (w : ℕ) : ℤ := if w < 32768 then (w : ℤ) else (w : ℤ) - 65536

/-- The sample value recovered from the data word of frame `i`, channel `c`. -/
def decodeSample (bs : List ℕ) (C i c : ℕ) : ℚ :=
  (decodeSampleInt (readU16 bs (44 + 2*(i*C + c))) : ℚ) / 32767

lemma decodeSampleInt_toNat (t : ℤ) (h1 : -32768 ≤ t) (h2 : t < 32768) :
    decodeSampleInt ((t % 65536).toNat) = t := by
  unfold decodeSampleInt
  split_ifs with h <;> omega

lemma jsTrunc_err (q : ℚ) : |q - (jsTrunc q : ℚ)| < 1 := by
  unfold jsTrunc
  split_ifs with h
  · rw [abs_of_nonneg (by linarith [Int.floor_le q])]
    linarith [Int.lt_floor_add_one q]
  · rw [abs_lt]
    constructor <;> push_cast <;>
      linarith [Int.floor_le (-q), Int.lt_floor_add_one (-q)]

lemma jsTrunc_bound (q : ℚ) (a : ℤ) (h0 : 0 ≤ a) (h1 : -(a:ℚ) ≤ q) (h2 : q ≤ (a:ℚ)) :
    -a ≤ jsTrunc q ∧ jsTrunc q ≤ a := by
  unfold jsTrunc
  split_ifs with h
  · constructor
    · have := Int.floor_nonneg.mpr h
      omega
    · have := Int.floor_mono h2
      simpa using this
  · push_neg at h
    constructor
    · have hm : ⌊-q⌋ ≤ a := by
        have := Int.floor_mono (show -q ≤ (a:ℚ) by linarith)
        simpa using this
      omega
    · have := Int.floor_nonneg.mpr (show (0:ℚ) ≤ -q by linarith)
      omega

lemma bufferToWav_header_byte (buf : AudioBuffer) (n : ℕ) (hn : n < 44) :
    (bufferToWav buf)[n]? = (wavHeader buf)[n]? := by
  unfold bufferToWav
  exact List.getElem?_append_left (by rw [wavHeader_length]; exact hn)

lemma readU16_header (buf : AudioBuffer) (n : ℕ) (hn : n + 1 < 44) :
    readU16 (bufferToWav buf) n = readU16 (wavHeader buf) n := by
  unfold readU16 readByte
  rw [List.getD_eq_getElem?_getD, List.getD_eq_getElem?_getD,
    List.getD_eq_getElem?_getD, List.getD_eq_getElem?_getD,
    bufferToWav_header_byte buf n (by omega), bufferToWav_header_byte buf (n+1) (by omega)]

set_option maxHeartbeats 1000000 in
lemma readU32_header (buf : AudioBuffer) (n : ℕ) (hn : n + 3 < 44) :
    readU32 (bufferToWav buf) n = readU32 (wavHeader buf) n := by
  unfold readU32 readByte
  rw [List.getD_eq_getElem?_getD, List.getD_eq_getElem?_getD,
    List.getD_eq_getElem?_getD, List.getD_eq_getElem?_getD,
    List.getD_eq_getElem?_getD, List.getD_eq_getElem?_getD,
    List.getD_eq_getElem?_getD, List.getD_eq_getElem?_getD,
    bufferToWav_header_byte buf n (by omega), bufferToWav_header_byte buf (n+1) (by omega),
    bufferToWav_header_byte buf (n+2) (by omega), bufferToWav_header_byte buf (n+3) (by omega)]

set_option maxHeartbeats 1000000 in
lemma readU16_wavHeader_22 (buf : AudioBuffer) :
    readU16 (wavHeader buf) 22 =
      buf.numberOfChannels % 256 + 256 * (buf.numberOfChannels / 256 % 256) := rfl

set_option maxHeartbeats 1000000 in
lemma readU32_wavHeader_24 (buf : AudioBuffer) :
    readU32 (wavHeader buf) 24 =
      buf.sampleRate % 256 + 256 * (buf.sampleRate / 256 % 256) +
      65536 * (buf.sampleRate / 65536 % 256) +
      16777216 * (buf.sampleRate / 16777216 % 256) := rfl

set_option maxHeartbeats 1000000 in
lemma readU32_wavHeader_40 (buf : AudioBuffer) :
    readU32 (wavHeader buf) 40 =
      (buf.length * buf.numberOfChannels * 2) % 256 +
      256 * ((buf.length * buf.numberOfChannels * 2) / 256 % 256) +
      65536 * ((buf.length * buf.numberOfChannels * 2) / 65536 % 256) +
      16777216 * ((buf.length * buf.numberOfChannels * 2) / 16777216 % 256) := rfl

/-- A concrete invariant-satisfying buffer whose sample rate does not fit the
32-bit header field. -/
def bufBig : AudioBuffer := ⟨1, 1, 4294967296, fun _ _ => 0⟩

/-- Claim C6, counterexample: the round-trip fails for a buffer satisfying the
stated invariants (`sampleRate > 0`, `channelCount ≥ 1`) whose sample rate
overflows the 32-bit header field: `sampleRate = 2^32` encodes and decodes to
`0`. -/
theorem wav_roundtrip_counterexample :
    0 < bufBig.sampleRate ∧ 1 ≤ bufBig.numberOfChannels ∧
    decodeSampleRate (bufferToWav bufBig) = 0 ∧ bufBig.sampleRate ≠ 0 := by
  refine ⟨by norm_num [bufBig], by norm_num [bufBig], ?_, by norm_num [bufBig]⟩
  rfl

/-- Claim C6, amended: provided the header fields fit (`channelCount < 2^16`,
`sampleRate < 2^32`, data length `< 2^32`), decoding the bytes of
`bufferToWav` recovers the same sample rate, channel count and frame count,
and every decoded sample is within `1/32767` of the clamped original. -/
theorem wav_roundtrip_amended (buf : AudioBuffer)
    (hC : 1 ≤ buf.numberOfChannels) (hC16 : buf.numberOfChannels < 65536)
    (hSR : buf.sampleRate < 4294967296)
    (hLen : buf.length * buf.numberOfChannels * 2 < 4294967296) :
    decodeSampleRate (bufferToWav buf) = buf.sampleRate ∧
    decodeChannelCount (bufferToWav buf) = buf.numberOfChannels ∧
    decodeFrameCount (bufferToWav buf) = buf.length ∧
    ∀ i c, i < buf.length → c < buf.numberOfChannels →
      |decodeSample (bufferToWav buf) buf.numberOfChannels i c - clamp (buf.data c i)| ≤
        1/32767 := by
  have hch : decodeChannelCount (bufferToWav buf) =
      buf.numberOfChannels % 256 + 256 * (buf.numberOfChannels / 256 % 256) := by
    unfold decodeChannelCount
    rw [readU16_header buf 22 (by omega), readU16_wavHeader_22]
  have hsr : decodeSampleRate (bufferToWav buf) =
      buf.sampleRate % 256 + 256 * (buf.sampleRate / 256 % 256) +
      65536 * (buf.sampleRate / 65536 % 256) +
      16777216 * (buf.sampleRate / 16777216 % 256) := by
    unfold decodeSampleRate
    rw [readU32_header buf 24 (by omega), readU32_wavHeader_24]
  have hdl : decodeDataLength (bufferToWav buf) =
      (buf.length * buf.numberOfChannels * 2) % 256 +
      256 * ((buf.length * buf.numberOfChannels * 2) / 256 % 256) +
      65536 * ((buf.length * buf.numberOfChannels * 2) / 65536 % 256) +
      16777216 * ((buf.length * buf.numberOfChannels * 2) / 16777216 % 256) := by
    unfold decodeDataLength
    rw [readU32_header buf 40 (by omega), readU32_wavHeader_40]
  have hch' : decodeChannelCount (bufferToWav buf) = buf.numberOfChannels := by
    rw [hch]; omega
  have hdl' : decodeDataLength (bufferToWav buf) = buf.length * buf.numberOfChannels * 2 := by
    rw [hdl]; omega
  refine ⟨by rw [hsr]; omega, hch', ?_, ?_⟩
  · unfold decodeFrameCount
    rw [hdl', hch']
    have e : buf.length * buf.numberOfChannels * 2 = buf.length * (2 * buf.numberOfChannels) := by
      ring
    rw [e, Nat.mul_div_cancel _ (by omega)]
  · intro i c hi hc
    have hb0 := wav_byte buf i c 0 hi hc (by omega)
    have hb1 := wav_byte buf i c 1 hi hc (by omega)
    have e0 : (bufferToWav buf)[44 + 2*(i * buf.numberOfChannels + c)]? =
        some (sampleWord (buf.data c i) % 256) := by
      simpa [int16LE, u16LE] using hb0
    have e1 : (bufferToWav buf)[44 + 2*(i * buf.numberOfChannels + c) + 1]? =
        some (sampleWord (buf.data c i) / 256 % 256) := by
      simpa [int16LE, u16LE] using hb1
    have hw : readU16 (bufferToWav buf) (44 + 2*(i * buf.numberOfChannels + c)) =
        sampleWord (buf.data c i) % 256 + 256 * (sampleWord (buf.data c i) / 256 % 256) := by
      unfold readU16 readByte
      rw [List.getD_eq_getElem?_getD, List.getD_eq_getElem?_getD, e0, e1]
      rfl
    have hwlt := sampleWord_lt (buf.data c i)
    have hw' : readU16 (bufferToWav buf) (44 + 2*(i * buf.numberOfChannels + c)) =
        sampleWord (buf.data c i) := by
      rw [hw]; omega
    have hcl := clamp_bounds (buf.data c i)
    have hq1 : -((32767:ℤ):ℚ) ≤ clamp (buf.data c i) * 32767 := by push_cast; nlinarith
    have hq2 : clamp (buf.data c i) * 32767 ≤ ((32767:ℤ):ℚ) := by push_cast; nlinarith
    have htb := jsTrunc_bound (clamp (buf.data c i) * 32767) 32767 (by norm_num) hq1 hq2
    have hdec : decodeSampleInt (sampleWord (buf.data c i)) =
        jsTrunc (clamp (buf.data c i) * 32767) := by
      unfold sampleWord
      exact decodeSampleInt_toNat _ (by omega) (by omega)
    have key : decodeSample (bufferToWav buf) buf.numberOfChannels i c =
        ((jsTrunc (clamp (buf.data c i) * 32767) : ℤ) : ℚ) / 32767 := by
      unfold decodeSample
      rw [hw', hdec]
    rw [key]
    have herr := jsTrunc_err (clamp (buf.data c i) * 32767)
    have expand : ((jsTrunc (clamp (buf.data c i) * 32767) : ℤ) : ℚ) / 32767 -
        clamp (buf.data c i) =
        (((jsTrunc (clamp (buf.data c i) * 32767) : ℤ) : ℚ) -
          clamp (buf.data c i) * 32767) / 32767 := by
      field_simp
      ring
    rw [expand, abs_div]
    rw [show |(32767:ℚ)| = 32767 by norm_num]
    rw [show (1:ℚ)/32767 = 1/32767 from rfl]
    apply div_le_div_of_nonneg_right ?_ (by norm_num)
    rw [abs_sub_comm]
    linarith

/-- Claim C6 witness. -/
theorem wav_roundtrip_amended_witness :
    decodeSampleRate (bufferToWav buf1) = buf1.sampleRate ∧
    decodeChannelCount (bufferToWav buf1) = buf1.numberOfChannels ∧
    decodeFrameCount (bufferToWav buf1) = buf1.length ∧
    ∀ i c, i < buf1.length → c < buf1.numberOfChannels →
      |decodeSample (bufferToWav buf1) buf1.numberOfChannels i c - clamp (buf1.data c i)| ≤
        1/32767 :=
  wav_roundtrip_amended buf1 (by decide) (by decide) (by decide) (by decide)

end DistortionEngine

/-- The settings object returned by `AudioCompressor.getQualitySettings`
(app.js lines 380-388): `{ compressionRatio, distortion }`. -/
structure QualitySettings where
  compressionRatio : ℚ
  distortion : ℚ

namespace AudioCompressor

/-- `AudioCompressor.getQualitySettings` (app.js): a five-entry lookup table;
levels outside `{1..5}` hit no entry (the JS expression yields `undefined`). -/
def getQualitySettings (level : ℕ) : Option QualitySettings :=
  match level with
  | 1 => some ⟨2, 0⟩
  | 2 => some ⟨3, 0⟩
  | 3 => some ⟨4, 0⟩
  | 4 => some ⟨4, 20⟩
  | 5 => some ⟨4, 40⟩
  | _ => none

/-- Claim C8: for every quality level in `{1..5}` the resolver returns a fully
populated settings object whose distortion amount is non-zero exactly for
levels 4 and 5, and the compression ratio is monotone (non-decreasing) in the
level. -/
theorem getQualitySettings_contract :
    (∀ l, 1 ≤ l → l ≤ 5 → ∃ s, getQualitySettings l = some s ∧
      (s.distortion ≠ 0 ↔ 4 ≤ l)) ∧
    (∀ l1 l2 s1 s2, l1 < l2 → l2 ≤ 5 → getQualitySettings l1 = some s1 →
      getQualitySettings l2 = some s2 →
      s1.compressionRatio ≤ s2.compressionRatio) := by
  constructor
  · intro l h1 h5
    interval_cases l
    · exact ⟨⟨2, 0⟩, rfl, by norm_num⟩
    · exact ⟨⟨3, 0⟩, rfl, by norm_num⟩
    · exact ⟨⟨4, 0⟩, rfl, by norm_num⟩
    · exact ⟨⟨4, 20⟩, rfl, by norm_num⟩
    · exact ⟨⟨4, 40⟩, rfl, by norm_num⟩
  · intro l1 l2 s1 s2 hlt h5 e1 e2
    have h1 : 1 ≤ l1 := by
      by_contra hcon
      have h0 : l1 = 0 := by omega
      rw [h0] at e1
      simp [getQualitySettings] at e1
    have h4 : l1 ≤ 4 := by omega
    have h2 : 2 ≤ l2 := by omega
    interval_cases l1 <;> interval_cases l2 <;>
      simp only [getQualitySettings, Option.some.injEq] at e1 e2 <;>
      subst e1 <;> subst e2 <;> norm_num

/-- Claim C8 witness. -/
theorem getQualitySettings_contract_witness :
    (∃ s, getQualitySettings 2 = some s ∧ (s.distortion ≠ 0 ↔ 4 ≤ 2)) ∧
    ((⟨3, 0⟩ : QualitySettings).compressionRatio ≤
      (⟨4, 20⟩ : QualitySettings).compressionRatio) :=
  ⟨getQualitySettings_contract.1 2 (by decide) (by decide),
   getQualitySettings_contract.2 2 4 ⟨3, 0⟩ ⟨4, 20⟩ (by decide) (by decide) rfl rfl⟩

end AudioCompressor
